import Mathlib

/-!
Verification of the WebDAV uploader plugin (`src/main.ts`).

Paths and other JavaScript strings are modelled as `List Char`.  The pure
path computations (`calculateRemotePath`, the sync-folder branch of
`uploadFile`, Node's `path.posix.join` / `normalize` / `dirname`, the
regex-based replacements) are translated directly from the source.  The
stateful WebDAV client (`request`, `webdavExists`, `webdavCreateDirectory`,
`webdavPut`) and the drop handler (`uploadFile`, the loop in `onload`) are
modelled as an interpreter over an abstract transport oracle; every issued
request is recorded in a trace, editor insertions and notices are recorded
in the outcome.  `path.dirname` (platform dependent in Node) is modelled as
its POSIX variant, matching the non-Windows hosts.
-/

/-- The characters of a string literal, used to write concrete paths. -/
def chars (s : String) : List Char := s.data

/-- The backslash character. -/
def bslash : Char := '\\'

/-- JS `str.replace(/\\/g, '/')`: every backslash becomes a forward slash.
Also models `.replace(/[\/\\]/g, '/')`, which acts identically. -/
def normSlashes (p : List Char) : List Char :=
  p.map (fun c => if c = bslash then '/' else c)

/-- JS `str.toLowerCase()` (character-wise lowering). -/
def toLowerL (p : List Char) : List Char := p.map Char.toLower

/-- Is the character a forward or backward slash (the class `[\\\/]`)? -/
def isAnySlash (c : Char) : Bool := c = '/' || c = bslash

/-- JS `str.replace(/[\\\/]+$/, '')`: drop the maximal trailing run of
slashes or backslashes. -/
def stripTrailSlashes (p : List Char) : List Char :=
  (p.reverse.dropWhile isAnySlash).reverse

/-- JS `str.replace(/\/$/, '')`: drop a single trailing forward slash. -/
def stripOneTrailSlash (p : List Char) : List Char :=
  if p.getLast? = some '/' then p.dropLast else p

/-- JS `str.replace(/^[\/\\]/, '')`: drop a single leading slash or
backslash. -/
def stripOneLeadSlash : List Char → List Char
  | [] => []
  | c :: t => if isAnySlash c then t else c :: t

/-- JS `str.startsWith('/')`. -/
def startsWithSlash (p : List Char) : Bool := p.head? = some '/'

/-- JS `hay.includes(needle)` (substring containment), by scanning for a
match of `needle` at every suffix of `hay`. -/
def includesL : List Char → List Char → Bool
  | [], needle => needle.isEmpty
  | c :: t, needle => needle.isPrefixOf (c :: t) || includesL t needle

/-- JS `str.split('/')`, keeping empty segments. -/
def splitSlash : List Char → List (List Char)
  | [] => [[]]
  | c :: t =>
    let r := splitSlash t
    if c = '/' then [] :: r
    else
      match r with
      | s :: rest => (c :: s) :: rest
      | [] => [[c]]

/-- Join segments with `'/'` separators (JS `parts.join('/')`). -/
def joinSegs : List (List Char) → List Char
  | [] => []
  | [s] => s
  | s :: t :: rest => s ++ '/' :: joinSegs (t :: rest)

/-- One step of Node's `normalizeString`: process a path segment against the
stack of kept segments (stored in reverse).  `allowAbove` is
`!isAbsolute`. -/
def normStep (allowAbove : Bool) (res : List (List Char)) (seg : List Char) :
    List (List Char) :=
  if seg = [] ∨ seg = ['.'] then res
  else if seg = ['.', '.'] then
    match res with
    | t :: rest =>
      if t = ['.', '.'] then (if allowAbove then seg :: res else res)
      else rest
    | [] => if allowAbove then [seg] else []
  else seg :: res

/-- Node `normalizeString`: resolve `.` and `..` segments, dropping empty
segments, returning the kept segments in order. -/
def normSegs (allowAbove : Bool) (segs : List (List Char)) : List (List Char) :=
  (segs.foldl (normStep allowAbove) []).reverse

/-- Node `path.posix.normalize`. -/
def posixNormalize (p : List Char) : List Char :=
  if p = [] then chars "."
  else
    let isAbs := startsWithSlash p
    let trailing := p.getLast? = some '/'
    let body := joinSegs (normSegs (!isAbs) (splitSlash p))
    if body = [] then
      if isAbs then chars "/"
      else if trailing then chars "./" else chars "."
    else
      let body := if trailing then body ++ ['/'] else body
      if isAbs then '/' :: body else body

/-- Node `path.posix.join` restricted to two arguments, as used by the
source. -/
def posixJoin (a b : List Char) : List Char :=
  if a = [] ∧ b = [] then chars "."
  else posixNormalize (if a = [] then b else if b = [] then a else a ++ '/' :: b)

/-- Node `path.posix.dirname`. -/
def posixDirname (p : List Char) : List Char :=
  match p with
  | [] => chars "."
  | c0 :: _ =>
    let hasRoot := c0 = '/'
    let r := (p.drop 1).reverse
    let r1 := r.dropWhile (fun c => c = '/')
    let r2 := r1.dropWhile (fun c => c ≠ '/')
    match r2 with
    | [] => if hasRoot then chars "/" else chars "."
    | _ :: r3 =>
      let e := r3.length + 1
      if hasRoot ∧ e = 1 then chars "//" else p.take e

/-- `true` when the string contains no two consecutive forward slashes. -/
def noDoubleSlash : List Char → Bool
  | a :: b :: t => (a != '/' || b != '/') && noDoubleSlash (b :: t)
  | _ => true

/-- Hexadecimal digit (uppercase), for percent-encoding. -/
def hexDigit (n : Nat) : Char :=
  if n < 10 then Char.ofNat (48 + n) else Char.ofNat (55 + n)

/-- UTF-8 bytes of a character, for percent-encoding. -/
def utf8Bytes (c : Char) : List Nat :=
  let n := c.toNat
  if n < 128 then [n]
  else if n < 2048 then [192 + n / 64, 128 + n % 64]
  else if n < 65536 then [224 + n / 4096, 128 + (n / 64) % 64, 128 + n % 64]
  else [240 + n / 262144, 128 + (n / 4096) % 64, 128 + (n / 64) % 64,
    128 + n % 64]

/-- `%XX` escape of one byte. -/
def pctByte (b : Nat) : List Char := ['%', hexDigit (b / 16), hexDigit (b % 16)]

/-- Characters JS `encodeURIComponent` leaves unescaped. -/
def uriUnreserved (c : Char) : Bool :=
  c.isAlpha || c.isDigit ||
    c ∈ ['-', '_', '.', '!', '~', '*', Char.ofNat 39, '(', ')']

/-- Characters JS `encodeURI` additionally leaves unescaped. -/
def uriReservedExtra (c : Char) : Bool :=
  c ∈ [';', '/', '?', ':', '@', '&', '=', '+', '$', ',', '#']

/-- JS `encodeURIComponent`. -/
def encodeURIComponentL (s : List Char) : List Char :=
  s.flatMap fun c =>
    if uriUnreserved c then [c] else (utf8Bytes c).flatMap pctByte

/-- JS `encodeURI`. -/
def encodeURIL (s : List Char) : List Char :=
  s.flatMap fun c =>
    if uriUnreserved c || uriReservedExtra c then [c]
    else (utf8Bytes c).flatMap pctByte

/-- `interface PathMapping` from the source. -/
structure PathMapping where
  localPath : List Char
  remotePath : List Char
deriving DecidableEq

/-- The `pathMode` setting: `'note' | 'local'`. -/
inductive PathMode
  | note
  | local
deriving DecidableEq

/-- `interface WebDAVUploaderSettings` from the source. -/
structure Settings where
  webdavUrl : List Char
  username : List Char
  password : List Char
  rootFolder : List Char
  pathMappings : List PathMapping
  localSyncFolder : List Char
  remoteSyncFolder : List Char
  pathMode : PathMode
  preferExistingLink : Bool
deriving DecidableEq

/-- A dropped `File`: display name, local path (`(file as any).path || ''`,
empty list when absent) and raw byte content (`file.arrayBuffer()`). -/
structure DropFile where
  name : List Char
  fpath : List Char
  content : List Nat
deriving DecidableEq

/-- The active markdown file; `parent` is its parent folder's path, `none`
modelling a null parent. -/
structure ActiveFile where
  parent : Option (List Char)
deriving DecidableEq

/-- `activeFile.parent ? activeFile.parent.path : '/'`. -/
def noteParentOf (af : ActiveFile) : List Char :=
  match af.parent with
  | some p => p
  | none => chars "/"

/-- A WebDAV request, as issued by the client methods. -/
inductive RCall
  | propfind (p : List Char)
  | mkcol (p : List Char)
  | put (p : List Char) (data : List Nat)
deriving DecidableEq

/-- Is the call a `PUT`? -/
def isPut : RCall → Bool
  | .put _ _ => true
  | _ => false

/-- Result of the transport (`requestUrl`): a response status, or a thrown
error carrying an optional HTTP status (`none` for pure network errors). -/
inductive TResult
  | ok (status : Nat)
  | err (status : Option Nat)
deriving DecidableEq

/-- The remote transport: answers a request given the requests already
issued during this drop handling. -/
abbrev Oracle := List RCall → RCall → TResult

instance {ε α : Type} [DecidableEq ε] [DecidableEq α] :
    DecidableEq (Except ε α) := fun a b =>
  match a, b with
  | .ok x, .ok y =>
    if h : x = y then .isTrue (by rw [h]) else .isFalse (by simp [h])
  | .error x, .error y =>
    if h : x = y then .isTrue (by rw [h]) else .isFalse (by simp [h])
  | .ok _, .error _ => .isFalse (by simp)
  | .error _, .ok _ => .isFalse (by simp)

/-- The `request` method: issue the call (always recorded in the trace),
return the response, map a thrown 404 to `null` (`Except.ok none`), and
rethrow every other error. -/
def request (ora : Oracle) (h : List RCall) (c : RCall) :
    Except (Option Nat) (Option Nat) × List RCall :=
  let h' := h ++ [c]
  match ora h c with
  | .ok s => (.ok (some s), h')
  | .err e => if e = some 404 then (.ok none, h') else (.error e, h')

/-- `webdavExists`: `PROPFIND` probe, true exactly for a 2xx response; both
the 404-as-null result and any caught error yield `false`. -/
def webdavExists (ora : Oracle) (h : List RCall) (p : List Char) :
    Bool × List RCall :=
  match request ora h (.propfind p) with
  | (.ok (some s), h') => (decide (200 ≤ s ∧ s < 300), h')
  | (.ok none, h') => (false, h')
  | (.error _, h') => (false, h')

/-- `path.split('/').filter(p => p)` in `webdavCreateDirectory`. -/
def cdParts (p : List Char) : List (List Char) :=
  (splitSlash p).filter (fun seg => seg ≠ [])

/-- The loop of `webdavCreateDirectory`: extend `currentPath` segment by
segment, check existence, `MKCOL` when absent, propagating errors. -/
def cdLoop (ora : Oracle) : List Char → List RCall → List (List Char) →
    Except (Option Nat) Unit × List RCall
  | _, h, [] => (.ok (), h)
  | cur, h, part :: rest =>
    let cur' := cur ++ '/' :: part
    let pr := webdavExists ora h cur'
    if pr.1 then cdLoop ora cur' pr.2 rest
    else
      match request ora pr.2 (.mkcol cur') with
      | (.ok _, h2) => cdLoop ora cur' h2 rest
      | (.error e, h2) => (.error e, h2)

/-- `webdavCreateDirectory`. -/
def webdavCreateDirectory (ora : Oracle) (h : List RCall) (p : List Char) :
    Except (Option Nat) Unit × List RCall :=
  cdLoop ora [] h (cdParts p)

/-- `webdavPut`. -/
def webdavPut (ora : Oracle) (h : List RCall) (p : List Char)
    (data : List Nat) : Except (Option Nat) Unit × List RCall :=
  match request ora h (.put p data) with
  | (.ok _, h') => (.ok (), h')
  | (.error e, h') => (.error e, h')

/-- User-visible notifications emitted while handling one file. -/
inductive NoticeTag
  | alreadyOnRemote
  | localLinkInserted
  | uploading
  | uploadSuccess
  | uploadFailed
deriving DecidableEq

/-- The resolved decision for one dropped file. -/
inductive Decision
  | upload
  | linkOnly
  | localLink
deriving DecidableEq

/-- Result of handling one dropped file: editor insertions, notices, the
cumulative request trace, whether the catch block ran, and the decision
taken (`none` when handling returned before resolving). -/
structure Outcome where
  ins : List (List Char)
  notices : List NoticeTag
  hist : List RCall
  failed : Bool
  decision : Option Decision
deriving DecidableEq

/-- Lines 169–172: `localSyncFolder` stripped of trailing separators,
separator-normalized and lowercased. -/
def normalizedLocalSync (st : Settings) : List Char :=
  toLowerL (normSlashes (stripTrailSlashes st.localSyncFolder))

/-- Line 176: the containment test of the sync-folder branch. -/
def insideSyncFolder (st : Settings) (filePath : List Char) : Bool :=
  (normalizedLocalSync st).isPrefixOf (toLowerL (normSlashes filePath))

/-- Line 184: the relative path inside the sync folder, sliced with the
original-case length and stripped of one leading separator. -/
def syncRelativePath (st : Settings) (filePath : List Char) : List Char :=
  stripOneLeadSlash
    ((normSlashes filePath).drop (stripTrailSlashes st.localSyncFolder).length)

/-- Lines 187–189: the remote path computed by the sync-folder branch. -/
def syncRemotePath (st : Settings) (filePath : List Char) : List Char :=
  let remoteBase := stripOneTrailSlash st.remoteSyncFolder
  let rp := posixJoin remoteBase (syncRelativePath st filePath)
  if startsWithSlash rp then rp else '/' :: rp

/-- Line 289: note-mode mapping comparison, `startsWith` on the raw
document folder path. -/
def noteMatch (noteParentPath : List Char) (m : PathMapping) : Bool :=
  m.localPath.isPrefixOf noteParentPath

/-- Line 271: local-mode fallback mapping comparison, `includes` on the
separator-normalized mapping path. -/
def localMatch (fileDir : List Char) (m : PathMapping) : Bool :=
  includesL fileDir (normSlashes m.localPath)

/-- One iteration of the `bestMatch` loops (lines 268–276 and 288–294):
keep the candidate with the strictly longer `localPath`. -/
def bmStep (matchB : PathMapping → Bool) (best : Option PathMapping)
    (m : PathMapping) : Option PathMapping :=
  if matchB m then
    match best with
    | none => some m
    | some b =>
      if b.localPath.length < m.localPath.length then some m else some b
  else best

/-- The `bestMatch` selection over the ordered mapping list. -/
def bestMatchFold (matchB : PathMapping → Bool) (ms : List PathMapping) :
    Option PathMapping :=
  ms.foldl (bmStep matchB) none

/-- Lines 283–303: the note-mode remote folder. -/
def noteModeFolder (st : Settings) (noteParentPath : List Char) : List Char :=
  match bestMatchFold (noteMatch noteParentPath) st.pathMappings with
  | some b =>
    let relativePath := noteParentPath.drop b.localPath.length
    let cleanRelative := normSlashes (stripOneLeadSlash relativePath)
    let cleanRemote := stripOneTrailSlash b.remotePath
    cleanRemote ++ '/' :: cleanRelative
  | none => posixJoin st.rootFolder noteParentPath

/-- Lines 262–281: the local-mode fallback remote folder, matched against
the dropped file's directory. -/
def localFallbackFolder (st : Settings) (filePath : List Char) : List Char :=
  let fileDir := normSlashes (posixDirname filePath)
  match bestMatchFold (localMatch fileDir) st.pathMappings with
  | some b => b.remotePath
  | none => st.rootFolder

/-- `calculateRemotePath` (lines 259–310). -/
def calculateRemotePath (st : Settings) (fileName noteParentPath
    filePath : List Char) : List Char :=
  let remoteFolder :=
    if st.pathMode = .local ∧ filePath ≠ [] then localFallbackFolder st filePath
    else noteModeFolder st noteParentPath
  let remoteFolder' :=
    if startsWithSlash remoteFolder then remoteFolder else '/' :: remoteFolder
  posixJoin remoteFolder' fileName

/-- Lines 241–246: the markdown link for a remote file. -/
def remoteLinkText (st : Settings) (name rfp : List Char) : List Char :=
  let baseUrl := stripOneTrailSlash st.webdavUrl
  let clean := if startsWithSlash rfp then rfp else '/' :: rfp
  let encodedPath := joinSegs ((splitSlash clean).map encodeURIComponentL)
  chars "[" ++ name ++ chars "](" ++ baseUrl ++ encodedPath ++ chars ")" ++
    [Char.ofNat 10]

/-- Line 221: the markdown link for a local file. -/
def localLinkText (name normalizedFilePath : List Char) : List Char :=
  chars "[" ++ name ++ chars "](file:///" ++ encodeURIL normalizedFilePath ++
    chars ")" ++ [Char.ofNat 10]

/-- Lines 160–211: resolution.  Returns
`((remoteFilePath, shouldUpload, isLocalLink), notices, trace)`. -/
def resolvePhase (st : Settings) (ora : Oracle) (h : List RCall)
    (file : DropFile) (af : ActiveFile) :
    (List Char × Bool × Bool) × List NoticeTag × List RCall :=
  if st.pathMode = .local then
    if st.localSyncFolder ≠ [] ∧ st.remoteSyncFolder ≠ [] ∧ file.fpath ≠ [] then
      if insideSyncFolder st file.fpath then
        let rp := syncRemotePath st file.fpath
        if st.preferExistingLink then
          let pr := webdavExists ora h rp
          if pr.1 then ((rp, false, false), [.alreadyOnRemote], pr.2)
          else ((rp, true, false), [], pr.2)
        else ((rp, true, false), [], h)
      else (([], false, true), [.localLinkInserted], h)
    else
      ((calculateRemotePath st file.name (noteParentOf af) file.fpath,
        true, false), [], h)
  else
    ((calculateRemotePath st file.name (noteParentOf af) file.fpath,
      true, false), [], h)

/-- Lines 226–237: ensure the parent directory exists, then upload.
Returns `(failed, notices, trace)`. -/
def uploadStep (ora : Oracle) (h : List RCall) (rp : List Char)
    (content : List Nat) : Bool × List NoticeTag × List RCall :=
  let pr := webdavExists ora h (posixDirname rp)
  let mk :=
    if pr.1 then (Except.ok (), pr.2)
    else webdavCreateDirectory ora pr.2 (posixDirname rp)
  match mk with
  | (.error _, h2) => (true, [], h2)
  | (.ok _, h2) =>
    match webdavPut ora h2 rp content with
    | (.ok _, h3) => (false, [.uploading, .uploadSuccess], h3)
    | (.error _, h3) => (true, [.uploading], h3)

/-- `uploadFile` (lines 151–256): the whole per-file handling, including
the surrounding try/catch. -/
def uploadFile (st : Settings) (ora : Oracle) (h : List RCall)
    (file : DropFile) : Option ActiveFile → Outcome
  | none => ⟨[], [], h, false, none⟩
  | some af =>
    let normalizedFilePath := normSlashes file.fpath
    match resolvePhase st ora h file af with
    | ((rp, shouldUpload, isLocalLink), n1, h1) =>
      if isLocalLink then
        ⟨[localLinkText file.name normalizedFilePath], n1, h1, false,
          some .localLink⟩
      else if shouldUpload ∧ rp ≠ [] then
        match uploadStep ora h1 rp file.content with
        | (true, n2, h2) =>
          ⟨[], n1 ++ n2 ++ [.uploadFailed], h2, true, some .upload⟩
        | (false, n2, h2) =>
          ⟨[remoteLinkText st file.name rp], n1 ++ n2, h2, false, some .upload⟩
      else if rp ≠ [] then
        ⟨[remoteLinkText st file.name rp], n1, h1, false, some .linkOnly⟩
      else ⟨[], n1, h1, false, none⟩

/-- The loop of `onload` (lines 68–73): files are awaited one at a time in
drop order, each handled independently.  Returns the concatenated
insertions and notices and the final trace. -/
def processDrop (st : Settings) (ora : Oracle) (active : Option ActiveFile) :
    List RCall → List DropFile → List (List Char) × List NoticeTag × List RCall
  | h, [] => ([], [], h)
  | h, f :: fs =>
    let o := uploadFile st ora h f active
    let r := processDrop st ora active o.hist fs
    (o.ins ++ r.1, o.notices ++ r.2.1, r.2.2)

/-- A concrete WebDAV server: the set of existing collection paths.  `MKCOL`
on an existing path is a duplicate-creation error (405); on an absent path
it creates the collection.  `PROPFIND` reports membership (the root always
exists); `PUT` succeeds. -/
def storeStep (s : List (List Char)) : RCall → List (List Char)
  | .mkcol p => if p ∈ s then s else p :: s
  | _ => s

/-- The server's answer given its current collections. -/
def storeAns (s : List (List Char)) : RCall → TResult
  | .propfind p => if p = [] ∨ p ∈ s then .ok 207 else .err (some 404)
  | .mkcol p => if p ∈ s then .err (some 405) else .ok 201
  | .put _ _ => .ok 201

/-- The server state reached from `s0` after the recorded requests. -/
def replayStore (s0 : List (List Char)) (h : List RCall) : List (List Char) :=
  h.foldl storeStep s0

/-- The oracle backed by the concrete server. -/
def storeOracle (s0 : List (List Char)) : Oracle :=
  fun h c => storeAns (replayStore s0 h) c

/-- The `currentPath` values visited by the `webdavCreateDirectory` loop. -/
def accPaths : List Char → List (List Char) → List (List Char)
  | _, [] => []
  | cur, part :: rest =>
    (cur ++ '/' :: part) :: accPaths (cur ++ '/' :: part) rest

/-- Default-shaped settings used by concrete examples. -/
def baseSettings : Settings :=
  { webdavUrl := chars "https://dav.example.com"
    username := chars "u"
    password := chars "p"
    rootFolder := chars "/"
    pathMappings := []
    localSyncFolder := []
    remoteSyncFolder := []
    pathMode := .note
    preferExistingLink := true }

/-- An oracle whose server answers every probe 207 and every write 201. -/
def oraAllOk : Oracle := fun _ c =>
  match c with
  | .propfind _ => .ok 207
  | _ => .ok 201

/-- An oracle whose transport fails every request with a 500. -/
def oraAll500 : Oracle := fun _ _ => .err (some 500)

/-- An oracle answering probes 404 and writes 201 (empty, writable
server). -/
def oraEmptySrv : Oracle := fun _ c =>
  match c with
  | .propfind _ => .err (some 404)
  | _ => .ok 201

/-- An oracle that rejects uploads of the file `/r/a.png` with a 500 but
accepts everything else; used to fail one file of a multi-file drop. -/
def oraFailA : Oracle := fun _ c =>
  match c with
  | .propfind _ => .ok 207
  | .put p _ => if p = chars "/r/a.png" then .err (some 500) else .ok 201
  | _ => .ok 201

/-- A mapping whose `localPath` is a proper prefix of `mapAB`'s. -/
def mapA : PathMapping := ⟨chars "a", chars "/r1"⟩

/-- A mapping with the longer `localPath` of the two. -/
def mapAB : PathMapping := ⟨chars "a/b", chars "/r2"⟩

/-- Note-mode settings rooted at `/r`. -/
def stNote : Settings := { baseSettings with rootFolder := chars "/r" }

/-- Local-mode settings with the sync folder `c:/s` mapped to `/r`. -/
def stLocal : Settings := { baseSettings with
  pathMode := .local
  rootFolder := chars "/r"
  localSyncFolder := chars "c:/s"
  remoteSyncFolder := chars "/r" }

/-- A dropped file inside the sync folder. -/
def fileIn : DropFile := ⟨chars "a.png", chars "c:/s/a.png", [1, 2, 3]⟩

/-- A dropped file outside the sync folder. -/
def fileOut : DropFile := ⟨chars "b.png", chars "d:/x/b.png", [4]⟩

/-- A dropped file exposing no local path. -/
def fileNoPath : DropFile := ⟨chars "a.png", [], [1, 2]⟩

/-- An active markdown file in the vault folder `n`. -/
def afN : Option ActiveFile := some ⟨some (chars "n")⟩

/-- An active markdown file whose parent folder path is the empty string. -/
def afRoot : ActiveFile := ⟨some []⟩

/-- A second dropped file with no local path, used in multi-file drops. -/
def fileB : DropFile := ⟨chars "b.png", [], [7]⟩

/-! ## Theorems -/

theorem webdavExists_hist (ora : Oracle) (h : List RCall) (p : List Char) :
    (webdavExists ora h p).2 = h ++ [.propfind p] := by
  unfold webdavExists request
  rcases hx : ora h (.propfind p) with s | e
  · simp [hx]
  · rcases e with _ | n
    · simp [hx]
    · by_cases h4 : n = 404 <;> simp [hx, h4]

/-- Claim C8: `webdavExists` is total (it returns a boolean and never
propagates an error), answers `true` exactly when the `PROPFIND` probe got
a 2xx response, and answers `false` both for the 404-as-absent case and for
every other thrown transport error, so callers cannot tell an absent path
from an unreachable store. -/
theorem spec_c8 (ora : Oracle) (h : List RCall) (p : List Char) :
    (webdavExists ora h p).2 = h ++ [.propfind p] ∧
    ((webdavExists ora h p).1 = true ↔
      ∃ s, ora h (.propfind p) = .ok s ∧ 200 ≤ s ∧ s < 300) ∧
    ∀ e, ora h (.propfind p) = .err e → (webdavExists ora h p).1 = false := by
  refine ⟨webdavExists_hist ora h p, ?_, ?_⟩
  · unfold webdavExists request
    rcases hx : ora h (.propfind p) with s | e
    · simp [hx]
    · rcases e with _ | n
      · simp [hx]
      · by_cases h4 : n = 404 <;> simp [hx, h4]
  · intro e he
    unfold webdavExists request
    rcases e with _ | n
    · simp [he]
    · by_cases h4 : n = 404 <;> simp [he, h4]

theorem spec_c8_witness :
    (webdavExists oraEmptySrv [] (chars "/x")).1 = false ∧
    (webdavExists oraEmptySrv [] (chars "/x")).2 = [.propfind (chars "/x")] :=
  ⟨(spec_c8 oraEmptySrv [] (chars "/x")).2.2 (some 404) rfl,
    (spec_c8 oraEmptySrv [] (chars "/x")).1⟩

theorem includesL_iff_infix (hay needle : List Char) :
    includesL hay needle = true ↔ needle <:+: hay := by
  induction hay with
  | nil => simp [includesL, List.isEmpty_iff, List.infix_nil]
  | cons c t ih =>
    simp only [includesL, Bool.or_eq_true, List.isPrefixOf_iff_prefix, ih,
      List.infix_cons_iff]

/-- Claim C9: mapping matching is asymmetric between the two modes.  In
note mode a mapping matches iff its raw `localPath` is a string prefix of
the raw document folder path; in the local-mode fallback a mapping matches
iff its separator-normalized `localPath` occurs as a substring (`includes`)
of the dropped file's directory — anywhere, not only as a prefix, as the
concrete instance (mapping `b/c` against directory `a/b/c`) shows. -/
theorem spec_c9 :
    (∀ np (m : PathMapping), noteMatch np m = true ↔ m.localPath <+: np) ∧
    (∀ fd (m : PathMapping),
      localMatch fd m = true ↔ normSlashes m.localPath <:+: fd) ∧
    (localMatch (chars "a/b/c") ⟨chars "b/c", []⟩ = true ∧
      noteMatch (chars "a/b/c") ⟨chars "b/c", []⟩ = false) := by
  refine ⟨?_, ?_, by decide, by decide⟩
  · intro np m; exact List.isPrefixOf_iff_prefix
  · intro fd m; exact includesL_iff_infix fd (normSlashes m.localPath)

theorem spec_c9_witness :
    noteMatch (chars "a/b") mapA = true ↔ (chars "a") <+: (chars "a/b") :=
  spec_c9.1 (chars "a/b") mapA

theorem bmFold_mono (matchB : PathMapping → Bool) (ms : List PathMapping) :
    ∀ a : PathMapping, ∃ b, ms.foldl (bmStep matchB) (some a) = some b ∧
      a.localPath.length ≤ b.localPath.length := by
  induction ms with
  | nil => intro a; exact ⟨a, rfl, le_rfl⟩
  | cons m t ih =>
    intro a
    simp only [List.foldl_cons]
    by_cases hm : matchB m
    · by_cases hl : a.localPath.length < m.localPath.length
      · simp only [bmStep, hm, if_true, hl]
        obtain ⟨b, hb, hlen⟩ := ih m
        exact ⟨b, by simpa using hb, le_trans (le_of_lt hl) hlen⟩
      · simp only [bmStep, hm, if_true, hl]
        obtain ⟨b, hb, hlen⟩ := ih a
        exact ⟨b, by simpa using hb, hlen⟩
    · simp only [bmStep, hm]
      obtain ⟨b, hb, hlen⟩ := ih a
      exact ⟨b, by simpa using hb, hlen⟩

theorem bmFold_sound (matchB : PathMapping → Bool) (ms : List PathMapping) :
    ∀ acc b, ms.foldl (bmStep matchB) acc = some b →
      acc = some b ∨ (b ∈ ms ∧ matchB b = true) := by
  induction ms with
  | nil => intro acc b h; exact .inl h
  | cons m t ih =>
    intro acc b h
    simp only [List.foldl_cons] at h
    rcases ih _ b h with h' | ⟨hmem, hmb⟩
    · by_cases hm : matchB m
      · rcases acc with _ | a
        · simp only [bmStep, hm, if_true] at h'
          refine .inr ⟨?_, ?_⟩
          · rw [← Option.some_inj.mp h']; exact List.mem_cons_self m t
          · rw [← Option.some_inj.mp h']; exact hm
        · by_cases hl : a.localPath.length < m.localPath.length
          · simp only [bmStep, hm, if_true, hl] at h'
            refine .inr ⟨?_, ?_⟩
            · rw [← Option.some_inj.mp h']; exact List.mem_cons_self m t
            · rw [← Option.some_inj.mp h']; exact hm
          · simp only [bmStep, hm, if_true, hl, if_false] at h'
            exact .inl h'
      · simp only [bmStep, hm] at h'
        exact .inl h'
    · exact .inr ⟨List.mem_cons_of_mem m hmem, hmb⟩

theorem bmFold_max (matchB : PathMapping → Bool) (ms : List PathMapping) :
    ∀ acc m, m ∈ ms → matchB m = true →
      ∃ b, ms.foldl (bmStep matchB) acc = some b ∧
        m.localPath.length ≤ b.localPath.length := by
  induction ms with
  | nil => intro acc m hmem; exact absurd hmem (List.not_mem_nil m)
  | cons x t ih =>
    intro acc m hmem hm
    simp only [List.foldl_cons]
    rcases List.mem_cons.mp hmem with rfl | hmem'
    · have hacc : ∃ c, bmStep matchB acc m = some c ∧
          m.localPath.length ≤ c.localPath.length := by
        rcases acc with _ | a
        · exact ⟨m, by simp [bmStep, hm], le_rfl⟩
        · by_cases hl : a.localPath.length < m.localPath.length
          · exact ⟨m, by simp [bmStep, hm, hl], le_rfl⟩
          · exact ⟨a, by simp [bmStep, hm, hl], by omega⟩
      obtain ⟨c, hc, hlen⟩ := hacc
      rw [hc]
      obtain ⟨b, hb, hlen2⟩ := bmFold_mono matchB t c
      exact ⟨b, hb, le_trans hlen hlen2⟩
    · exact ih _ m hmem' hm

/-- Claim C2: when at least one mapping matches, the `bestMatch` loop used
by both resolution branches selects a matching mapping from the configured
list whose `localPath` length is maximal among all matching mappings; in
particular, of two mappings with one `localPath` a proper prefix of the
other, both matching, the longer wins. -/
theorem spec_c2 (matchB : PathMapping → Bool) (ms : List PathMapping)
    (hex : ∃ m ∈ ms, matchB m = true) :
    ∃ b, bestMatchFold matchB ms = some b ∧ b ∈ ms ∧ matchB b = true ∧
      ∀ m ∈ ms, matchB m = true →
        m.localPath.length ≤ b.localPath.length := by
  obtain ⟨m0, hm0, hmb0⟩ := hex
  obtain ⟨b, hb, _⟩ := bmFold_max matchB ms none m0 hm0 hmb0
  have hb' : bestMatchFold matchB ms = some b := hb
  have hsound := bmFold_sound matchB ms none b hb
  refine ⟨b, hb', ?_, ?_, ?_⟩
  · rcases hsound with h | ⟨hmem, _⟩
    · exact absurd h (by simp)
    · exact hmem
  · rcases hsound with h | ⟨_, hmb⟩
    · exact absurd h (by simp)
    · exact hmb
  · intro m hm hmb
    obtain ⟨b', hb2, hlen⟩ := bmFold_max matchB ms none m hm hmb
    have : b' = b := Option.some_inj.mp (hb2.symm.trans hb)
    rw [← this]; exact hlen

theorem spec_c2_witness :
    (∃ m ∈ [mapA, mapAB], noteMatch (chars "a/b/c") m = true) ∧
    (∃ b, bestMatchFold (noteMatch (chars "a/b/c")) [mapA, mapAB] = some b ∧
      b ∈ [mapA, mapAB] ∧ noteMatch (chars "a/b/c") b = true ∧
      ∀ m ∈ [mapA, mapAB], noteMatch (chars "a/b/c") m = true →
        m.localPath.length ≤ b.localPath.length) ∧
    bestMatchFold (noteMatch (chars "a/b/c")) [mapA, mapAB] = some mapAB :=
  ⟨⟨mapA, by decide, by decide⟩,
    spec_c2 (noteMatch (chars "a/b/c")) [mapA, mapAB]
      ⟨mapA, by decide, by decide⟩,
    by decide⟩

theorem splitSlash_no_slash (p : List Char) :
    ∀ s ∈ splitSlash p, ('/' : Char) ∉ s := by
  induction p with
  | nil => intro s hs; simp [splitSlash] at hs; simp [hs]
  | cons c t ih =>
    intro s hs
    by_cases hc : c = '/'
    · simp only [splitSlash, hc, if_true] at hs
      rcases List.mem_cons.mp hs with rfl | hs'
      · simp
      · exact ih s hs'
    · simp only [splitSlash, hc, if_false] at hs
      rcases he : splitSlash t with _ | ⟨a, rest⟩
      · rw [he] at hs
        simp at hs
        rw [hs]
        intro hm
        simp at hm
        exact hc hm.symm
      · rw [he] at hs
        rcases List.mem_cons.mp hs with rfl | hs'
        · intro hmem
          rcases List.mem_cons.mp hmem with h1 | h2
          · exact hc h1.symm
          · exact ih a (he ▸ List.mem_cons_self a rest) h2
        · exact ih s (he ▸ List.mem_cons_of_mem a hs')

theorem normStep_mem (allow : Bool) (acc : List (List Char)) (seg : List Char)
    (s : List Char) (hs : s ∈ normStep allow acc seg) :
    s ∈ acc ∨ (s = seg ∧ seg ≠ []) := by
  unfold normStep at hs
  by_cases h1 : seg = [] ∨ seg = ['.']
  · rw [if_pos h1] at hs; exact .inl hs
  · rw [if_neg h1] at hs
    have hne : seg ≠ [] := fun e => h1 (.inl e)
    by_cases h2 : seg = ['.', '.']
    · rw [if_pos h2] at hs
      rcases acc with _ | ⟨t, rest⟩
      · cases allow with
        | false => simp at hs
        | true =>
          simp at hs
          exact .inr ⟨hs, hne⟩
      · have hs2 : s ∈ (if t = ['.', '.'] then
            (if allow = true then seg :: t :: rest else t :: rest)
            else rest) := hs
        by_cases ht : t = ['.', '.']
        · rw [if_pos ht] at hs2
          cases allow with
          | false =>
            simp at hs2
            rcases hs2 with rfl | hs'
            · exact .inl (List.mem_cons_self _ _)
            · exact .inl (List.mem_cons_of_mem _ hs')
          | true =>
            simp only [if_true] at hs2
            rcases List.mem_cons.mp hs2 with rfl | hs'
            · exact .inr ⟨rfl, hne⟩
            · exact .inl hs'
        · rw [if_neg ht] at hs2
          exact .inl (List.mem_cons_of_mem t hs2)
    · rw [if_neg h2] at hs
      rcases List.mem_cons.mp hs with rfl | hs'
      · exact .inr ⟨rfl, hne⟩
      · exact .inl hs'

theorem normFold_good (allow : Bool) :
    ∀ (segs : List (List Char)) (acc : List (List Char)),
      (∀ s ∈ segs, ('/' : Char) ∉ s) →
      (∀ s ∈ acc, s ≠ [] ∧ ('/' : Char) ∉ s) →
      ∀ s ∈ segs.foldl (normStep allow) acc, s ≠ [] ∧ ('/' : Char) ∉ s := by
  intro segs
  induction segs with
  | nil => intro acc _ hacc; simpa using hacc
  | cons seg t ih =>
    intro acc hseg hacc
    simp only [List.foldl_cons]
    apply ih (normStep allow acc seg)
      (fun s hs => hseg s (List.mem_cons_of_mem _ hs))
    intro s hs
    rcases normStep_mem allow acc seg s hs with h | ⟨rfl, hne⟩
    · exact hacc s h
    · exact ⟨hne, hseg s (List.mem_cons_self _ _)⟩

theorem normSegs_good (allow : Bool) (p : List Char) :
    ∀ s ∈ normSegs allow (splitSlash p), s ≠ [] ∧ ('/' : Char) ∉ s := by
  intro s hs
  unfold normSegs at hs
  exact normFold_good allow (splitSlash p) [] (splitSlash_no_slash p)
    (by simp) s (List.mem_reverse.mp hs)

theorem noDoubleSlash_of_no_slash :
    ∀ s : List Char, ('/' : Char) ∉ s → noDoubleSlash s = true
  | [], _ => rfl
  | [_], _ => rfl
  | a :: b :: t, h => by
    simp only [noDoubleSlash, Bool.and_eq_true]
    refine ⟨?_, noDoubleSlash_of_no_slash (b :: t)
      (fun hb => h (List.mem_cons_of_mem _ hb))⟩
    have ha : a ≠ '/' := fun e => h (by simp [e])
    simp [bne_iff_ne, ha]

theorem noDoubleSlash_append :
    ∀ a b : List Char, noDoubleSlash a = true → noDoubleSlash b = true →
      (a.getLast? = some '/' → b.head? ≠ some '/') →
      noDoubleSlash (a ++ b) = true
  | [], b, _, hb, _ => hb
  | [x], b, _, hb, hx => by
    rcases b with _ | ⟨z, t⟩
    · rfl
    · simp only [List.cons_append, List.nil_append, noDoubleSlash,
        Bool.and_eq_true]
      refine ⟨?_, hb⟩
      by_cases hxz : x = '/'
      · have : z ≠ '/' := by
          intro e
          exact hx (by simp [hxz]) (by simp [e])
        simp [bne_iff_ne, this]
      · simp [bne_iff_ne, hxz]
  | x :: y :: t, b, ha, hb, hx => by
    simp only [noDoubleSlash, Bool.and_eq_true] at ha
    have hrec := noDoubleSlash_append (y :: t) b ha.2 hb
      (by intro h1; exact hx (by rw [← h1]; rfl))
    simp only [List.cons_append, noDoubleSlash, Bool.and_eq_true]
    exact ⟨ha.1, hrec⟩

theorem noDoubleSlash_slash_cons (x : List Char) (hx : x.head? ≠ some '/')
    (hnd : noDoubleSlash x = true) : noDoubleSlash ('/' :: x) = true := by
  rcases x with _ | ⟨c, t⟩
  · rfl
  · simp only [noDoubleSlash, Bool.and_eq_true]
    refine ⟨?_, hnd⟩
    have : c ≠ '/' := fun e => hx (by simp [e])
    simp [bne_iff_ne, this]

theorem joinSegs_good :
    ∀ L : List (List Char), (∀ s ∈ L, s ≠ [] ∧ ('/' : Char) ∉ s) → L ≠ [] →
      joinSegs L ≠ [] ∧ (joinSegs L).head? ≠ some '/' ∧
      (joinSegs L).getLast? ≠ some '/' ∧ noDoubleSlash (joinSegs L) = true
  | [], _, hne => absurd rfl hne
  | [s], h, _ => by
    obtain ⟨hs1, hs2⟩ := h s (List.mem_cons_self s [])
    refine ⟨by simpa [joinSegs] using hs1, ?_, ?_,
      by simpa [joinSegs] using noDoubleSlash_of_no_slash s hs2⟩
    · simp only [joinSegs]
      intro e
      exact hs2 (List.mem_of_mem_head? (by rw [e]; rfl))
    · simp only [joinSegs]
      intro e
      exact hs2 (List.mem_of_mem_getLast? e)
  | s :: t :: rest, h, _ => by
    obtain ⟨hs1, hs2⟩ := h s (List.mem_cons_self s (t :: rest))
    obtain ⟨hj1, hj2, hj3, hj4⟩ := joinSegs_good (t :: rest)
      (fun x hx => h x (List.mem_cons_of_mem s hx)) (by simp)
    have hrw : joinSegs (s :: t :: rest) = s ++ '/' :: joinSegs (t :: rest) :=
      rfl
    refine ⟨?_, ?_, ?_, ?_⟩
    · rw [hrw]; simp [hs1]
    · rw [hrw, List.head?_append_of_ne_nil _ hs1]
      intro e
      exact hs2 (List.mem_of_mem_head? (by rw [e]; rfl))
    · rw [hrw, List.getLast?_append_of_ne_nil s (by simp)]
      have : ('/' :: joinSegs (t :: rest)).getLast? =
          (joinSegs (t :: rest)).getLast? := by
        rcases hj : joinSegs (t :: rest) with _ | ⟨c, u⟩
        · exact absurd hj hj1
        · rfl
      rw [this]; exact hj3
    · rw [hrw]
      refine noDoubleSlash_append s ('/' :: joinSegs (t :: rest))
        (noDoubleSlash_of_no_slash s hs2)
        (noDoubleSlash_slash_cons _ hj2 hj4) ?_
      intro he
      exact absurd (List.mem_of_mem_getLast? he) hs2

theorem posixNormalize_good (p : List Char) :
    noDoubleSlash (posixNormalize p) = true ∧ posixNormalize p ≠ [] ∧
    (startsWithSlash p = true →
      startsWithSlash (posixNormalize p) = true) := by
  unfold posixNormalize
  by_cases hp : p = []
  · rw [if_pos hp]
    refine ⟨by decide, by decide, ?_⟩
    intro habs
    rw [hp] at habs
    exact absurd habs (by decide)
  · rw [if_neg hp]
    have hgood := normSegs_good (!startsWithSlash p) p
    by_cases hb : joinSegs (normSegs (!startsWithSlash p) (splitSlash p)) = []
    · rw [if_pos hb]
      by_cases habs : startsWithSlash p = true
      · rw [if_pos habs]
        exact ⟨by decide, by decide, fun _ => by decide⟩
      · rw [if_neg habs]
        by_cases htr : p.getLast? = some '/'
        · rw [if_pos htr]
          exact ⟨by decide, by decide, fun h => absurd h habs⟩
        · rw [if_neg htr]
          exact ⟨by decide, by decide, fun h => absurd h habs⟩
    · rw [if_neg hb]
      obtain ⟨hne, hhd, hlast, hnd⟩ :=
        joinSegs_good (normSegs (!startsWithSlash p) (splitSlash p)) hgood
          (fun e => hb (by rw [e]; rfl))
      by_cases htr : p.getLast? = some '/'
      · rw [if_pos htr]
        have hnd2 : noDoubleSlash
            (joinSegs (normSegs (!startsWithSlash p) (splitSlash p)) ++
              ['/']) = true := by
          refine noDoubleSlash_append _ ['/'] hnd (by decide) ?_
          intro hlast2 _
          exact hlast hlast2
        have hhd2 : (joinSegs (normSegs (!startsWithSlash p) (splitSlash p)) ++
            ['/']).head? ≠ some '/' := by
          rw [List.head?_append_of_ne_nil _ hne]
          exact hhd
        by_cases habs : startsWithSlash p = true
        · rw [if_pos habs]
          refine ⟨noDoubleSlash_slash_cons _ hhd2 hnd2, by simp, fun _ => ?_⟩
          simp [startsWithSlash]
        · rw [if_neg habs]
          exact ⟨hnd2, by simp [hne], fun h => absurd h habs⟩
      · rw [if_neg htr]
        by_cases habs : startsWithSlash p = true
        · rw [if_pos habs]
          refine ⟨noDoubleSlash_slash_cons _ hhd hnd, by simp, fun _ => ?_⟩
          simp [startsWithSlash]
        · rw [if_neg habs]
          exact ⟨hnd, hne, fun h => absurd h habs⟩

theorem posixJoin_noDouble (a b : List Char) :
    noDoubleSlash (posixJoin a b) = true := by
  unfold posixJoin
  by_cases h : a = [] ∧ b = []
  · rw [if_pos h]; decide
  · rw [if_neg h]
    exact (posixNormalize_good _).1

theorem posixJoin_ne_nil (a b : List Char) : posixJoin a b ≠ [] := by
  unfold posixJoin
  by_cases h : a = [] ∧ b = []
  · rw [if_pos h]; decide
  · rw [if_neg h]
    exact (posixNormalize_good _).2.1

theorem posixJoin_abs (a b : List Char) (ha : startsWithSlash a = true) :
    startsWithSlash (posixJoin a b) = true := by
  have hane : a ≠ [] := by
    intro e
    rw [e] at ha
    exact absurd ha (by decide)
  unfold posixJoin
  rw [if_neg (fun h => hane h.1), if_neg hane]
  by_cases hb : b = []
  · rw [if_pos hb]
    exact (posixNormalize_good a).2.2 ha
  · rw [if_neg hb]
    refine (posixNormalize_good _).2.2 ?_
    rcases a with _ | ⟨c, t⟩
    · exact absurd rfl hane
    · simpa [startsWithSlash] using ha

theorem ensureSlash_abs (rp : List Char) :
    startsWithSlash (if startsWithSlash rp then rp else '/' :: rp) = true := by
  by_cases h : startsWithSlash rp = true
  · rw [if_pos h]; exact h
  · rw [if_neg h]; simp [startsWithSlash]

theorem ensureSlash_noDouble (rp : List Char)
    (hnd : noDoubleSlash rp = true) :
    noDoubleSlash (if startsWithSlash rp then rp else '/' :: rp) = true := by
  by_cases h : startsWithSlash rp = true
  · rw [if_pos h]; exact hnd
  · rw [if_neg h]
    refine noDoubleSlash_slash_cons rp ?_ hnd
    simpa [startsWithSlash] using h

theorem syncRemotePath_good (st : Settings) (fq : List Char) :
    startsWithSlash (syncRemotePath st fq) = true ∧
    noDoubleSlash (syncRemotePath st fq) = true := by
  unfold syncRemotePath
  exact ⟨ensureSlash_abs _, ensureSlash_noDouble _ (posixJoin_noDouble _ _)⟩

theorem calculateRemotePath_good (st : Settings) (name np fp : List Char) :
    startsWithSlash (calculateRemotePath st name np fp) = true ∧
    noDoubleSlash (calculateRemotePath st name np fp) = true := by
  unfold calculateRemotePath
  exact ⟨posixJoin_abs _ _ (ensureSlash_abs _), posixJoin_noDouble _ _⟩

/-- Claim C3 (amended): every remote path computed by the resolver — by
`calculateRemotePath` in either mode, and by the sync-folder branch of
`uploadFile` — begins with `/` and contains no two consecutive `/`
characters; the spec's example (rootFolder `/docs`, document folder
`notes//sub`) resolves to `/docs/notes/sub/a.png`.  (The claim's further
assertion that the output uses only forward-slash separators regardless of
input separator style fails: backslashes in the document folder path or in
remote-side settings are preserved — see the counterexample.) -/
theorem spec_c3 (st : Settings) (name np fp fq : List Char) :
    (startsWithSlash (calculateRemotePath st name np fp) = true ∧
      noDoubleSlash (calculateRemotePath st name np fp) = true) ∧
    (startsWithSlash (syncRemotePath st fq) = true ∧
      noDoubleSlash (syncRemotePath st fq) = true) ∧
    calculateRemotePath { baseSettings with rootFolder := chars "/docs" }
      (chars "a.png") (chars "notes//sub") [] =
        chars "/docs/notes/sub/a.png" :=
  ⟨calculateRemotePath_good st name np fp, syncRemotePath_good st fq,
    by decide⟩

/-- Claim C3 counterexample: with rootFolder `/docs`, no mappings and the
note-mode document folder `notes\sub` (backslash separator style), the
resolved remote path contains a backslash — the resolver does not convert
the document folder's separators, refuting "uses only forward-slash
separators regardless of the separator style of the inputs". -/
theorem spec_c3_counterexample :
    bslash ∈ calculateRemotePath
      { baseSettings with rootFolder := chars "/docs" }
      (chars "a.png") (chars "notes\\sub") [] := by decide

theorem replayStore_append (s0 : List (List Char)) (h h' : List RCall) :
    replayStore s0 (h ++ h') = replayStore (replayStore s0 h) h' :=
  List.foldl_append _ _ _ _

theorem replayStore_snoc (s0 : List (List Char)) (h : List RCall) (c : RCall) :
    replayStore s0 (h ++ [c]) = storeStep (replayStore s0 h) c := by
  rw [replayStore_append]; rfl

theorem storeStep_mono (s : List (List Char)) (c : RCall) (q : List Char)
    (hq : q ∈ s) : q ∈ storeStep s c := by
  cases c with
  | mkcol p =>
    show q ∈ (if p ∈ s then s else p :: s)
    by_cases hp : p ∈ s
    · rw [if_pos hp]; exact hq
    · rw [if_neg hp]; exact List.mem_cons_of_mem p hq
  | propfind p => exact hq
  | put p d => exact hq

theorem replayStore_mono (q : List Char) :
    ∀ (h : List RCall) (s : List (List Char)), q ∈ s → q ∈ replayStore s h
  | [], _, hq => hq
  | c :: t, s, hq =>
    replayStore_mono q t (storeStep s c) (storeStep_mono s c q hq)

theorem webdavExists_store_true (s0 : List (List Char)) (h : List RCall)
    (p : List Char) (hp : p = [] ∨ p ∈ replayStore s0 h) :
    webdavExists (storeOracle s0) h p = (true, h ++ [.propfind p]) := by
  have hans : storeOracle s0 h (.propfind p) = .ok 207 := by
    show (if p = [] ∨ p ∈ replayStore s0 h then TResult.ok 207
      else TResult.err (some 404)) = TResult.ok 207
    rw [if_pos hp]
  unfold webdavExists request
  rw [hans]
  rfl

theorem webdavExists_store_false (s0 : List (List Char)) (h : List RCall)
    (p : List Char) (hp : ¬(p = [] ∨ p ∈ replayStore s0 h)) :
    webdavExists (storeOracle s0) h p = (false, h ++ [.propfind p]) := by
  have hans : storeOracle s0 h (.propfind p) = .err (some 404) := by
    show (if p = [] ∨ p ∈ replayStore s0 h then TResult.ok 207
      else TResult.err (some 404)) = TResult.err (some 404)
    rw [if_neg hp]
  unfold webdavExists request
  rw [hans]
  rfl

theorem request_store_mkcol (s0 : List (List Char)) (h : List RCall)
    (p : List Char) (hp : p ∉ replayStore s0 h) :
    request (storeOracle s0) h (.mkcol p) =
      (.ok (some 201), h ++ [.mkcol p]) := by
  have hans : storeOracle s0 h (.mkcol p) = .ok 201 := by
    show (if p ∈ replayStore s0 h then TResult.err (some 405)
      else TResult.ok 201) = TResult.ok 201
    rw [if_neg hp]
  unfold request
  rw [hans]

theorem cdLoop_store (s0 : List (List Char)) :
    ∀ (parts : List (List Char)) (cur : List Char) (h : List RCall),
      (cdLoop (storeOracle s0) cur h parts).1 = .ok () ∧
      (∃ t, (cdLoop (storeOracle s0) cur h parts).2 = h ++ t) ∧
      ∀ q ∈ accPaths cur parts,
        q ∈ replayStore s0 (cdLoop (storeOracle s0) cur h parts).2 := by
  intro parts
  induction parts with
  | nil =>
    intro cur h
    exact ⟨rfl, ⟨[], by simp [cdLoop]⟩, by simp [accPaths]⟩
  | cons part rest ih =>
    intro cur h
    by_cases hp : (cur ++ '/' :: part) ∈ replayStore s0 h
    · have hex := webdavExists_store_true s0 h _ (.inr hp)
      have hrw : cdLoop (storeOracle s0) cur h (part :: rest) =
          cdLoop (storeOracle s0) (cur ++ '/' :: part)
            (h ++ [.propfind (cur ++ '/' :: part)]) rest := by
        simp only [cdLoop, hex]
        simp
      rw [hrw]
      obtain ⟨ih1, ⟨t, ih2⟩, ih3⟩ :=
        ih (cur ++ '/' :: part) (h ++ [.propfind (cur ++ '/' :: part)])
      refine ⟨ih1, ⟨.propfind (cur ++ '/' :: part) :: t, by
        rw [ih2]; simp⟩, ?_⟩
      intro q hq
      simp only [accPaths] at hq
      rcases List.mem_cons.mp hq with rfl | hq'
      · rw [ih2, replayStore_append]
        refine replayStore_mono _ t _ ?_
        rw [replayStore_snoc]
        exact storeStep_mono _ _ _ hp
      · exact ih3 q hq'
    · have hnp : ¬((cur ++ '/' :: part) = [] ∨
          (cur ++ '/' :: part) ∈ replayStore s0 h) := by
        rintro (he | hm)
        · simp at he
        · exact hp hm
      have hex := webdavExists_store_false s0 h _ hnp
      have hp2 : (cur ++ '/' :: part) ∉
          replayStore s0 (h ++ [.propfind (cur ++ '/' :: part)]) := by
        rw [replayStore_snoc]
        exact hp
      have hmk := request_store_mkcol s0
        (h ++ [.propfind (cur ++ '/' :: part)]) _ hp2
      have hrw : cdLoop (storeOracle s0) cur h (part :: rest) =
          cdLoop (storeOracle s0) (cur ++ '/' :: part)
            (h ++ [.propfind (cur ++ '/' :: part)] ++
              [.mkcol (cur ++ '/' :: part)]) rest := by
        simp only [cdLoop, hex, hmk]
        simp
      rw [hrw]
      obtain ⟨ih1, ⟨t, ih2⟩, ih3⟩ :=
        ih (cur ++ '/' :: part)
          (h ++ [.propfind (cur ++ '/' :: part)] ++
            [.mkcol (cur ++ '/' :: part)])
      refine ⟨ih1, ⟨.propfind (cur ++ '/' :: part) ::
        .mkcol (cur ++ '/' :: part) :: t, by rw [ih2]; simp⟩, ?_⟩
      intro q hq
      simp only [accPaths] at hq
      rcases List.mem_cons.mp hq with rfl | hq'
      · rw [ih2, replayStore_append]
        refine replayStore_mono _ t _ ?_
        rw [replayStore_snoc]
        have hred : storeStep (replayStore s0 (h ++ [RCall.propfind
            (cur ++ '/' :: part)])) (RCall.mkcol (cur ++ '/' :: part)) =
            (cur ++ '/' :: part) :: replayStore s0 (h ++ [RCall.propfind
              (cur ++ '/' :: part)]) := by
          show (if (cur ++ '/' :: part) ∈ replayStore s0 (h ++
            [RCall.propfind (cur ++ '/' :: part)]) then _ else _) = _
          rw [if_neg hp2]
        rw [hred]
        exact List.mem_cons_self _ _
      · exact ih3 q hq'

theorem cdLoop_store_idem (s0 : List (List Char)) :
    ∀ (parts : List (List Char)) (cur : List Char) (h : List RCall),
      (∀ q ∈ accPaths cur parts, q ∈ replayStore s0 h) →
      (cdLoop (storeOracle s0) cur h parts).1 = .ok () ∧
      replayStore s0 (cdLoop (storeOracle s0) cur h parts).2 =
        replayStore s0 h := by
  intro parts
  induction parts with
  | nil => intro cur h _; exact ⟨rfl, rfl⟩
  | cons part rest ih =>
    intro cur h hall
    have hall2 : ∀ q ∈ (cur ++ '/' :: part) ::
        accPaths (cur ++ '/' :: part) rest, q ∈ replayStore s0 h := by
      intro q hq
      exact hall q (by simpa [accPaths] using hq)
    have hp : (cur ++ '/' :: part) ∈ replayStore s0 h :=
      hall2 _ (List.mem_cons_self _ _)
    have hex := webdavExists_store_true s0 h _ (.inr hp)
    have hrw : cdLoop (storeOracle s0) cur h (part :: rest) =
        cdLoop (storeOracle s0) (cur ++ '/' :: part)
          (h ++ [.propfind (cur ++ '/' :: part)]) rest := by
      simp only [cdLoop, hex]
      simp
    rw [hrw]
    have hreplay : replayStore s0 (h ++ [.propfind (cur ++ '/' :: part)]) =
        replayStore s0 h := by
      rw [replayStore_snoc]; rfl
    obtain ⟨ih1, ih2⟩ := ih (cur ++ '/' :: part)
      (h ++ [.propfind (cur ++ '/' :: part)])
      (by
        intro q hq
        rw [hreplay]
        exact hall2 q (List.mem_cons_of_mem _ hq))
    exact ⟨ih1, by rw [ih2, hreplay]⟩

/-- Claim C5: `webdavCreateDirectory` walks each prefix from root to leaf,
probing existence and issuing `MKCOL` only for absent prefixes; against a
store whose `MKCOL` rejects duplicates, calling it twice in a row succeeds
both times (no duplicate-creation error) and the second call leaves the
remote store's existing-directory state exactly as the first call left
it. -/
theorem spec_c5 (s0 : List (List Char)) (p : List Char) :
    (webdavCreateDirectory (storeOracle s0) [] p).1 = .ok () ∧
    (webdavCreateDirectory (storeOracle s0)
      (webdavCreateDirectory (storeOracle s0) [] p).2 p).1 = .ok () ∧
    replayStore s0 (webdavCreateDirectory (storeOracle s0)
      (webdavCreateDirectory (storeOracle s0) [] p).2 p).2 =
      replayStore s0 (webdavCreateDirectory (storeOracle s0) [] p).2 := by
  obtain ⟨h1, _, h3⟩ := cdLoop_store s0 (cdParts p) [] []
  obtain ⟨h4, h5⟩ := cdLoop_store_idem s0 (cdParts p) []
    (cdLoop (storeOracle s0) [] [] (cdParts p)).2 h3
  exact ⟨h1, h4, h5⟩

theorem request_hist (ora : Oracle) (h : List RCall) (c : RCall) :
    (request ora h c).2 = h ++ [c] := by
  unfold request
  rcases ora h c with s | e
  · rfl
  · by_cases he : e = some 404 <;> simp [he]

theorem webdavPut_hist (ora : Oracle) (h : List RCall) (p : List Char)
    (d : List Nat) : (webdavPut ora h p d).2 = h ++ [.put p d] := by
  unfold webdavPut
  rcases hreq : request ora h (.put p d) with ⟨r, h'⟩
  have h2 : h' = h ++ [.put p d] := by
    have := request_hist ora h (.put p d)
    rw [hreq] at this
    exact this
  rcases r with e | v <;> simp [h2]

theorem cdLoop_no_put (ora : Oracle) :
    ∀ (parts : List (List Char)) (cur : List Char) (h : List RCall),
      ((cdLoop ora cur h parts).2).filter isPut = h.filter isPut := by
  intro parts
  induction parts with
  | nil => intro cur h; rfl
  | cons part rest ih =>
    intro cur h
    rcases hex : webdavExists ora h (cur ++ '/' :: part) with ⟨b, h1⟩
    have h1e : h1 = h ++ [.propfind (cur ++ '/' :: part)] := by
      have := webdavExists_hist ora h (cur ++ '/' :: part)
      rw [hex] at this
      exact this
    have hfil1 : h1.filter isPut = h.filter isPut := by
      rw [h1e, List.filter_append]
      simp [isPut]
    have hrw : cdLoop ora cur h (part :: rest) =
        (if b then cdLoop ora (cur ++ '/' :: part) h1 rest
         else match request ora h1 (.mkcol (cur ++ '/' :: part)) with
           | (.ok _, h2) => cdLoop ora (cur ++ '/' :: part) h2 rest
           | (.error e, h2) => (.error e, h2)) := by
      simp only [cdLoop, hex]
    rw [hrw]
    cases b with
    | true =>
      simp only [if_true]
      rw [ih, hfil1]
    | false =>
      simp only [Bool.false_eq_true, if_false]
      rcases hreq : request ora h1 (.mkcol (cur ++ '/' :: part)) with ⟨r, h2⟩
      have h2e : h2 = h1 ++ [.mkcol (cur ++ '/' :: part)] := by
        have := request_hist ora h1 (.mkcol (cur ++ '/' :: part))
        rw [hreq] at this
        exact this
      have hfil2 : h2.filter isPut = h.filter isPut := by
        rw [h2e, List.filter_append, hfil1]
        simp [isPut]
      rcases r with e | v
      · simpa using hfil2
      · simpa using (ih (cur ++ '/' :: part) h2).trans hfil2

theorem calculateRemotePath_ne_nil (st : Settings) (n np fp : List Char) :
    calculateRemotePath st n np fp ≠ [] := by
  unfold calculateRemotePath
  exact posixJoin_ne_nil _ _

theorem syncRemotePath_ne_nil (st : Settings) (fq : List Char) :
    syncRemotePath st fq ≠ [] := by
  intro e
  have := (syncRemotePath_good st fq).1
  rw [e] at this
  exact absurd this (by decide)

theorem resolvePhase_cases (st : Settings) (ora : Oracle) (h : List RCall)
    (file : DropFile) (af : ActiveFile) :
    (resolvePhase st ora h file af).1.2.2 = true ∨
      (resolvePhase st ora h file af).1.1 ≠ [] := by
  unfold resolvePhase
  by_cases h1 : st.pathMode = .local
  · rw [if_pos h1]
    by_cases h2 : st.localSyncFolder ≠ [] ∧ st.remoteSyncFolder ≠ [] ∧
        file.fpath ≠ []
    · rw [if_pos h2]
      by_cases h3 : insideSyncFolder st file.fpath = true
      · rw [if_pos h3]
        by_cases h4 : st.preferExistingLink = true
        · rw [if_pos h4]
          by_cases h5 : (webdavExists ora h (syncRemotePath st file.fpath)).1 =
              true
          · rw [if_pos h5]
            exact .inr (syncRemotePath_ne_nil st file.fpath)
          · rw [if_neg h5]
            exact .inr (syncRemotePath_ne_nil st file.fpath)
        · rw [if_neg h4]
          exact .inr (syncRemotePath_ne_nil st file.fpath)
      · rw [if_neg h3]
        exact .inl rfl
    · rw [if_neg h2]
      exact .inr (calculateRemotePath_ne_nil st file.name (noteParentOf af)
        file.fpath)
  · rw [if_neg h1]
    exact .inr (calculateRemotePath_ne_nil st file.name (noteParentOf af)
      file.fpath)

theorem uploadStep_puts (ora : Oracle) (h : List RCall) (rp : List Char)
    (content : List Nat) (hok : (uploadStep ora h rp content).1 = false) :
    (uploadStep ora h rp content).2.2.filter isPut =
      h.filter isPut ++ [.put rp content] := by
  unfold uploadStep at hok ⊢
  rcases hex : webdavExists ora h (posixDirname rp) with ⟨b, h1⟩
  rw [hex] at hok
  have h1f : h1.filter isPut = h.filter isPut := by
    have hh := webdavExists_hist ora h (posixDirname rp)
    rw [hex] at hh
    have hh2 : h1 = h ++ [.propfind (posixDirname rp)] := hh
    rw [hh2, List.filter_append]
    simp [isPut]
  cases b with
  | true =>
    replace hok : (match webdavPut ora h1 rp content with
      | (.ok _, h3) =>
        (false, [NoticeTag.uploading, NoticeTag.uploadSuccess], h3)
      | (.error _, h3) => (true, [NoticeTag.uploading], h3)).1 = false := hok
    show (match webdavPut ora h1 rp content with
      | (.ok _, h3) =>
        (false, [NoticeTag.uploading, NoticeTag.uploadSuccess], h3)
      | (.error _, h3) =>
        (true, [NoticeTag.uploading], h3)).2.2.filter isPut =
      h.filter isPut ++ [.put rp content]
    rcases hpw : webdavPut ora h1 rp content with ⟨r, h3⟩
    have h3e : h3 = h1 ++ [.put rp content] := by
      have hth := webdavPut_hist ora h1 rp content
      rw [hpw] at hth
      exact hth
    rcases r with e | v
    · rw [hpw] at hok
      simp at hok
    · show h3.filter isPut = h.filter isPut ++ [.put rp content]
      rw [h3e, List.filter_append, h1f]
      simp [isPut]
  | false =>
    replace hok : (match webdavCreateDirectory ora h1 (posixDirname rp) with
      | (.error _, h2) => (true, [], h2)
      | (.ok _, h2) =>
        match webdavPut ora h2 rp content with
        | (.ok _, h3) =>
          (false, [NoticeTag.uploading, NoticeTag.uploadSuccess], h3)
        | (.error _, h3) => (true, [NoticeTag.uploading], h3)).1 = false := hok
    show (match webdavCreateDirectory ora h1 (posixDirname rp) with
      | (.error _, h2) => (true, [], h2)
      | (.ok _, h2) =>
        match webdavPut ora h2 rp content with
        | (.ok _, h3) =>
          (false, [NoticeTag.uploading, NoticeTag.uploadSuccess], h3)
        | (.error _, h3) =>
          (true, [NoticeTag.uploading], h3)).2.2.filter isPut =
      h.filter isPut ++ [.put rp content]
    rcases hcd : webdavCreateDirectory ora h1 (posixDirname rp) with ⟨r, h2⟩
    have h2f : h2.filter isPut = h.filter isPut := by
      have hth := cdLoop_no_put ora (cdParts (posixDirname rp)) [] h1
      unfold webdavCreateDirectory at hcd
      rw [hcd] at hth
      have hth2 : h2.filter isPut = h1.filter isPut := hth
      rw [hth2, h1f]
    rcases r with e | v
    · rw [hcd] at hok
      simp at hok
    · rw [hcd] at hok
      replace hok : (match webdavPut ora h2 rp content with
        | (.ok _, h3) =>
          (false, [NoticeTag.uploading, NoticeTag.uploadSuccess], h3)
        | (.error _, h3) => (true, [NoticeTag.uploading], h3)).1 = false := hok
      show (match webdavPut ora h2 rp content with
        | (.ok _, h3) =>
          (false, [NoticeTag.uploading, NoticeTag.uploadSuccess], h3)
        | (.error _, h3) =>
          (true, [NoticeTag.uploading], h3)).2.2.filter isPut =
        h.filter isPut ++ [.put rp content]
      rcases hpw : webdavPut ora h2 rp content with ⟨r2, h3⟩
      have h3e : h3 = h2 ++ [.put rp content] := by
        have hth := webdavPut_hist ora h2 rp content
        rw [hpw] at hth
        exact hth
      rcases r2 with e2 | v2
      · rw [hpw] at hok
        simp at hok
      · show h3.filter isPut = h.filter isPut ++ [.put rp content]
        rw [h3e, List.filter_append, h2f]
        simp [isPut]

theorem uploadFile_eq (st : Settings) (ora : Oracle) (h : List RCall)
    (file : DropFile) (af : ActiveFile) (rp : List Char) (su il : Bool)
    (n1 : List NoticeTag) (h1 : List RCall)
    (hR : resolvePhase st ora h file af = ((rp, su, il), n1, h1)) :
    uploadFile st ora h file (some af) =
      if il = true then
        ⟨[localLinkText file.name (normSlashes file.fpath)], n1, h1, false,
          some .localLink⟩
      else if su = true ∧ rp ≠ [] then
        match uploadStep ora h1 rp file.content with
        | (true, n2, h2) =>
          ⟨[], n1 ++ n2 ++ [.uploadFailed], h2, true, some .upload⟩
        | (false, n2, h2) =>
          ⟨[remoteLinkText st file.name rp], n1 ++ n2, h2, false,
            some .upload⟩
      else if rp ≠ [] then
        ⟨[remoteLinkText st file.name rp], n1, h1, false, some .linkOnly⟩
      else ⟨[], n1, h1, false, none⟩ := by
  simp only [uploadFile]
  rw [hR]

theorem uploadFile_failed (st : Settings) (ora : Oracle) (h : List RCall)
    (file : DropFile) (active : Option ActiveFile)
    (hf : (uploadFile st ora h file active).failed = true) :
    (uploadFile st ora h file active).ins = [] ∧
    NoticeTag.uploadFailed ∈ (uploadFile st ora h file active).notices := by
  rcases active with _ | af
  · exact absurd hf (by simp [uploadFile])
  · rcases hR : resolvePhase st ora h file af with ⟨⟨rp, su, il⟩, n1, h1⟩
    rw [uploadFile_eq st ora h file af rp su il n1 h1 hR] at hf ⊢
    cases il with
    | true =>
      rw [if_pos rfl] at hf
      simp at hf
    | false =>
      rw [if_neg (by simp)] at hf ⊢
      by_cases hc : su = true ∧ rp ≠ []
      · rw [if_pos hc] at hf ⊢
        rcases hU : uploadStep ora h1 rp file.content with ⟨fl, n2, h2⟩
        try rw [hU] at hf
        try rw [hU]
        cases fl with
        | true => exact ⟨rfl, by simp⟩
        | false => simp at hf
      · rw [if_neg hc] at hf ⊢
        by_cases hrp : rp ≠ []
        · rw [if_pos hrp] at hf
          simp at hf
        · rw [if_neg hrp] at hf
          simp at hf

theorem uploadFile_ok_ins (st : Settings) (ora : Oracle) (h : List RCall)
    (file : DropFile) (af : ActiveFile)
    (hf : (uploadFile st ora h file (some af)).failed = false) :
    (uploadFile st ora h file (some af)).ins.length = 1 := by
  rcases hR : resolvePhase st ora h file af with ⟨⟨rp, su, il⟩, n1, h1⟩
  have hcases := resolvePhase_cases st ora h file af
  rw [hR] at hcases
  replace hcases : il = true ∨ rp ≠ [] := hcases
  rw [uploadFile_eq st ora h file af rp su il n1 h1 hR] at hf ⊢
  cases il with
  | true =>
    rw [if_pos rfl]
    rfl
  | false =>
    rw [if_neg (by simp)] at hf ⊢
    replace hcases : rp ≠ [] := by
      rcases hcases with h' | h'
      · exact absurd h' (by simp)
      · exact h'
    by_cases hc : su = true ∧ rp ≠ []
    · rw [if_pos hc] at hf ⊢
      rcases hU : uploadStep ora h1 rp file.content with ⟨fl, n2, h2⟩
      try rw [hU] at hf
      try rw [hU]
      cases fl with
      | true => simp at hf
      | false => rfl
    · rw [if_neg hc] at hf ⊢
      rw [if_pos hcases]
      rfl

/-- Claim C7: whenever handling a dropped file fails during directory
creation or upload, the error is caught and surfaced as a user-visible
notification (the catch-block notice), and no text is inserted into the
document for that file — link insertion only happens after the upload or
existence-check step has fully succeeded. -/
theorem spec_c7 (st : Settings) (ora : Oracle) (h : List RCall)
    (file : DropFile) (active : Option ActiveFile)
    (hf : (uploadFile st ora h file active).failed = true) :
    (uploadFile st ora h file active).ins = [] ∧
    NoticeTag.uploadFailed ∈ (uploadFile st ora h file active).notices :=
  uploadFile_failed st ora h file active hf

theorem spec_c7_witness :
    (uploadFile stNote oraAll500 [] fileNoPath afN).failed = true ∧
    (uploadFile stNote oraAll500 [] fileNoPath afN).ins = [] ∧
    NoticeTag.uploadFailed ∈
      (uploadFile stNote oraAll500 [] fileNoPath afN).notices :=
  ⟨by decide, (spec_c7 stNote oraAll500 [] fileNoPath afN (by decide)).1,
    (spec_c7 stNote oraAll500 [] fileNoPath afN (by decide)).2⟩

theorem processDrop_pair (st : Settings) (ora : Oracle)
    (act : Option ActiveFile) (h : List RCall) (A B : DropFile) :
    processDrop st ora act h [A, B] =
      ((uploadFile st ora h A act).ins ++
        (uploadFile st ora (uploadFile st ora h A act).hist B act).ins,
       (uploadFile st ora h A act).notices ++
        (uploadFile st ora (uploadFile st ora h A act).hist B act).notices,
       (uploadFile st ora (uploadFile st ora h A act).hist B act).hist) := by
  simp [processDrop]

/-- Claim C6: files of one drop are handled strictly sequentially in drop
order with independent outcomes: for a two-file drop where file A fails and
file B succeeds, A's failure is surfaced as the failure notice, A inserts
nothing, B is still attempted (against the trace left by A), the inserted
text is exactly B's single link, and the notices are A's followed by
B's. -/
theorem spec_c6 (st : Settings) (ora : Oracle) (af : ActiveFile)
    (h : List RCall) (A B : DropFile)
    (hA : (uploadFile st ora h A (some af)).failed = true)
    (hB : (uploadFile st ora (uploadFile st ora h A (some af)).hist B
      (some af)).failed = false) :
    (processDrop st ora (some af) h [A, B]).1 =
      (uploadFile st ora (uploadFile st ora h A (some af)).hist B
        (some af)).ins ∧
    (processDrop st ora (some af) h [A, B]).1.length = 1 ∧
    NoticeTag.uploadFailed ∈ (uploadFile st ora h A (some af)).notices ∧
    (processDrop st ora (some af) h [A, B]).2.1 =
      (uploadFile st ora h A (some af)).notices ++
        (uploadFile st ora (uploadFile st ora h A (some af)).hist B
          (some af)).notices := by
  have hp := processDrop_pair st ora (some af) h A B
  have hAf := uploadFile_failed st ora h A (some af) hA
  have hBl := uploadFile_ok_ins st ora (uploadFile st ora h A (some af)).hist
    B af hB
  refine ⟨?_, ?_, hAf.2, ?_⟩
  · rw [hp]
    show (uploadFile st ora h A (some af)).ins ++ _ = _
    rw [hAf.1]
    simp
  · rw [hp]
    show ((uploadFile st ora h A (some af)).ins ++ _).length = 1
    rw [hAf.1]
    simpa using hBl
  · rw [hp]

theorem spec_c6_witness :
    ((uploadFile stNote oraFailA [] fileNoPath (some afRoot)).failed = true ∧
      (uploadFile stNote oraFailA
        (uploadFile stNote oraFailA [] fileNoPath (some afRoot)).hist fileB
        (some afRoot)).failed = false) ∧
    (processDrop stNote oraFailA (some afRoot) []
        [fileNoPath, fileB]).1 =
      (uploadFile stNote oraFailA
        (uploadFile stNote oraFailA [] fileNoPath (some afRoot)).hist fileB
        (some afRoot)).ins ∧
    (processDrop stNote oraFailA (some afRoot) []
        [fileNoPath, fileB]).1.length = 1 ∧
    NoticeTag.uploadFailed ∈
      (uploadFile stNote oraFailA [] fileNoPath (some afRoot)).notices :=
  ⟨⟨by decide, by decide⟩,
    (spec_c6 stNote oraFailA afRoot [] fileNoPath fileB (by decide)
      (by decide)).1,
    (spec_c6 stNote oraFailA afRoot [] fileNoPath fileB (by decide)
      (by decide)).2.1,
    (spec_c6 stNote oraFailA afRoot [] fileNoPath fileB (by decide)
      (by decide)).2.2.1⟩

theorem resolvePhase_sync (st : Settings) (ora : Oracle) (h : List RCall)
    (file : DropFile) (af : ActiveFile)
    (h1 : st.pathMode = .local)
    (h2 : st.localSyncFolder ≠ []) (h3 : st.remoteSyncFolder ≠ [])
    (h4 : file.fpath ≠ []) (h5 : insideSyncFolder st file.fpath = true)
    (h6 : st.preferExistingLink = true) :
    resolvePhase st ora h file af =
      (if (webdavExists ora h (syncRemotePath st file.fpath)).1 = true then
        ((syncRemotePath st file.fpath, false, false), [.alreadyOnRemote],
          (webdavExists ora h (syncRemotePath st file.fpath)).2)
      else ((syncRemotePath st file.fpath, true, false), [],
        (webdavExists ora h (syncRemotePath st file.fpath)).2)) := by
  unfold resolvePhase
  rw [if_pos h1, if_pos ⟨h2, h3, h4⟩, if_pos h5, if_pos h6]

/-- Claim C1 (amended): for every drop event resolved through the
local-mode sync-folder branch with `preferExistingLink` enabled, the code
probes `exists(remotePath)`; if the probe answers true the decision is
`LinkOnly` — no `put` is issued but the remote link is still inserted — and
if it answers false the decision is `Upload` and, when the handling
completes without error, `put` is called exactly once with the file's full
byte content.  (The original claim quantified over every drop event with a
computed remote path; in note mode the probe is skipped entirely — see the
counterexample.) -/
theorem spec_c1 (st : Settings) (ora : Oracle) (file : DropFile)
    (af : ActiveFile)
    (h1 : st.pathMode = .local)
    (h2 : st.localSyncFolder ≠ []) (h3 : st.remoteSyncFolder ≠ [])
    (h4 : file.fpath ≠ []) (h5 : insideSyncFolder st file.fpath = true)
    (h6 : st.preferExistingLink = true) :
    ((webdavExists ora [] (syncRemotePath st file.fpath)).1 = true →
      (uploadFile st ora [] file (some af)).decision = some .linkOnly ∧
      (uploadFile st ora [] file (some af)).hist.filter isPut = [] ∧
      (uploadFile st ora [] file (some af)).ins =
        [remoteLinkText st file.name (syncRemotePath st file.fpath)]) ∧
    ((webdavExists ora [] (syncRemotePath st file.fpath)).1 = false →
      (uploadFile st ora [] file (some af)).failed = false →
      (uploadFile st ora [] file (some af)).decision = some .upload ∧
      (uploadFile st ora [] file (some af)).hist.filter isPut =
        [.put (syncRemotePath st file.fpath) file.content]) := by
  have hrpne := syncRemotePath_ne_nil st file.fpath
  have hhist := webdavExists_hist ora [] (syncRemotePath st file.fpath)
  constructor
  · intro hb
    have hRP := resolvePhase_sync st ora [] file af h1 h2 h3 h4 h5 h6
    rw [if_pos hb] at hRP
    rw [uploadFile_eq st ora [] file af _ false false _ _ hRP]
    rw [if_neg (by simp), if_neg (by simp), if_pos hrpne]
    refine ⟨rfl, ?_, rfl⟩
    show ((webdavExists ora []
      (syncRemotePath st file.fpath)).2).filter isPut = []
    rw [hhist]
    simp [isPut]
  · intro hb hnf
    have hRP := resolvePhase_sync st ora [] file af h1 h2 h3 h4 h5 h6
    rw [if_neg (by simp [hb])] at hRP
    rw [uploadFile_eq st ora [] file af _ true false _ _ hRP] at hnf ⊢
    rw [if_neg (by simp), if_pos ⟨rfl, hrpne⟩] at hnf ⊢
    rcases hU : uploadStep ora
      (webdavExists ora [] (syncRemotePath st file.fpath)).2
      (syncRemotePath st file.fpath) file.content with ⟨fl, n2, h2⟩
    try rw [hU] at hnf
    try rw [hU]
    cases fl with
    | true => simp at hnf
    | false =>
      refine ⟨rfl, ?_⟩
      show h2.filter isPut =
        [.put (syncRemotePath st file.fpath) file.content]
      have hok : (uploadStep ora
          (webdavExists ora [] (syncRemotePath st file.fpath)).2
          (syncRemotePath st file.fpath) file.content).1 = false := by
        rw [hU]
      have hputs := uploadStep_puts ora
        (webdavExists ora [] (syncRemotePath st file.fpath)).2
        (syncRemotePath st file.fpath) file.content hok
      rw [hU] at hputs
      replace hputs : h2.filter isPut =
          ((webdavExists ora [] (syncRemotePath st file.fpath)).2).filter
            isPut ++ [.put (syncRemotePath st file.fpath) file.content] :=
        hputs
      rw [hputs, hhist]
      simp [isPut]

theorem spec_c1_witness :
    (stLocal.pathMode = .local ∧ insideSyncFolder stLocal fileIn.fpath = true ∧
      stLocal.preferExistingLink = true ∧
      (webdavExists oraAllOk [] (syncRemotePath stLocal fileIn.fpath)).1 =
        true) ∧
    (uploadFile stLocal oraAllOk [] fileIn (some afRoot)).decision =
      some .linkOnly ∧
    (uploadFile stLocal oraAllOk [] fileIn (some afRoot)).hist.filter isPut =
      [] ∧
    (uploadFile stLocal oraAllOk [] fileIn (some afRoot)).ins =
      [remoteLinkText stLocal fileIn.name
        (syncRemotePath stLocal fileIn.fpath)] :=
  ⟨⟨rfl, by decide, rfl, by decide⟩,
    (spec_c1 stLocal oraAllOk fileIn afRoot rfl (by decide) (by decide)
      (by decide) (by decide) rfl).1 (by decide)⟩

/-- Claim C1 counterexample: a note-mode drop with
`preferExistingLink = true` against a server where the resolved remote path
already exists (every probe answers 207) still performs exactly one `PUT`
with decision `Upload`: the `preferExistingLink` existence probe only
happens in the local-mode sync-folder branch, so the claim as stated fails
for note-mode drop events. -/
theorem spec_c1_counterexample :
    stNote.preferExistingLink = true ∧
    (webdavExists oraAllOk []
      (calculateRemotePath stNote (chars "a.png") (chars "n") [])).1 =
        true ∧
    ((uploadFile stNote oraAllOk [] fileNoPath afN).hist.filter
      isPut).length = 1 ∧
    (uploadFile stNote oraAllOk [] fileNoPath afN).decision =
      some .upload := by decide

theorem resolvePhase_outside (st : Settings) (ora : Oracle) (h : List RCall)
    (file : DropFile) (af : ActiveFile)
    (h1 : st.pathMode = .local)
    (h2 : st.localSyncFolder ≠ []) (h3 : st.remoteSyncFolder ≠ [])
    (h4 : file.fpath ≠ []) (h5 : insideSyncFolder st file.fpath = false) :
    resolvePhase st ora h file af =
      (([], false, true), [.localLinkInserted], h) := by
  unfold resolvePhase
  rw [if_pos h1, if_pos ⟨h2, h3, h4⟩, if_neg (by simp [h5])]

/-- Claim C4: in local mode with a sync folder configured, containment is
decided on the lowercased, separator-normalized strings — it depends only
on the case-folded forms of the paths, and the spec's example
(`C:/Users/Me/Sync/a.png` inside `c:/users/me/sync`) is classified as
inside — and whenever the dropped file's (non-empty) path is outside the
sync folder the decision is `LocalLink`: a `file:///` link is inserted, the
only notice is the local-link notice, and no remote request of any kind is
issued for that file. -/
theorem spec_c4 (st : Settings) (ora : Oracle) (h : List RCall)
    (file : DropFile) (af : ActiveFile)
    (h1 : st.pathMode = .local)
    (h2 : st.localSyncFolder ≠ []) (h3 : st.remoteSyncFolder ≠ [])
    (h4 : file.fpath ≠ []) (h5 : insideSyncFolder st file.fpath = false) :
    (uploadFile st ora h file (some af)).decision = some .localLink ∧
    (uploadFile st ora h file (some af)).hist = h ∧
    (uploadFile st ora h file (some af)).ins =
      [localLinkText file.name (normSlashes file.fpath)] ∧
    (uploadFile st ora h file (some af)).notices = [.localLinkInserted] ∧
    (∀ p q, toLowerL (normSlashes p) = toLowerL (normSlashes q) →
      insideSyncFolder st p = insideSyncFolder st q) ∧
    insideSyncFolder { baseSettings with
      localSyncFolder := chars "c:/users/me/sync" }
      (chars "C:/Users/Me/Sync/a.png") = true := by
  have hRP := resolvePhase_outside st ora h file af h1 h2 h3 h4 h5
  rw [uploadFile_eq st ora h file af [] false true _ _ hRP]
  rw [if_pos rfl]
  refine ⟨rfl, rfl, rfl, rfl, ?_, by decide⟩
  intro p q hpq
  unfold insideSyncFolder
  rw [hpq]

theorem spec_c4_witness :
    (stLocal.pathMode = .local ∧
      insideSyncFolder stLocal fileOut.fpath = false) ∧
    (uploadFile stLocal oraAllOk [] fileOut (some afRoot)).decision =
      some .localLink ∧
    (uploadFile stLocal oraAllOk [] fileOut (some afRoot)).hist = [] ∧
    (uploadFile stLocal oraAllOk [] fileOut (some afRoot)).ins =
      [localLinkText fileOut.name (normSlashes fileOut.fpath)] :=
  ⟨⟨rfl, by decide⟩,
    (spec_c4 stLocal oraAllOk [] fileOut afRoot rfl (by decide) (by decide)
      (by decide) (by decide)).1,
    (spec_c4 stLocal oraAllOk [] fileOut afRoot rfl (by decide) (by decide)
      (by decide) (by decide)).2.1,
    (spec_c4 stLocal oraAllOk [] fileOut afRoot rfl (by decide) (by decide)
      (by decide) (by decide)).2.2.1⟩

theorem resolvePhase_note (st : Settings) (ora : Oracle) (h : List RCall)
    (file : DropFile) (af : ActiveFile) (h1 : ¬st.pathMode = .local) :
    resolvePhase st ora h file af =
      ((calculateRemotePath st file.name (noteParentOf af) file.fpath,
        true, false), [], h) := by
  unfold resolvePhase
  rw [if_neg h1]

/-- Claim C10: in local mode, a dropped file exposing no local path (empty
path string) never produces a `LocalLink` even when a sync folder is
configured: the sync-folder branch is skipped, handling is identical to
note-mode handling of the same drop, and `calculateRemotePath` takes the
note-mode branch, resolving against the active document's parent folder via
the mappings or the root folder. -/
theorem spec_c10 (st : Settings) (ora : Oracle) (h : List RCall)
    (file : DropFile) (active : Option ActiveFile)
    (h1 : st.pathMode = .local) (h2 : file.fpath = []) :
    uploadFile st ora h file active =
      uploadFile { st with pathMode := .note } ora h file active ∧
    (uploadFile st ora h file active).decision ≠ some .localLink ∧
    ∀ np, calculateRemotePath st file.name np file.fpath =
      calculateRemotePath { st with pathMode := .note } file.name np
        file.fpath := by
  have hcalc : ∀ np, calculateRemotePath st file.name np file.fpath =
      calculateRemotePath { st with pathMode := .note } file.name np
        file.fpath := by
    intro np
    unfold calculateRemotePath
    rw [h2]
    rw [if_neg (by simp), if_neg (by simp)]
    unfold noteModeFolder
    simp
  have hres : ∀ af : ActiveFile, resolvePhase st ora h file af =
      resolvePhase { st with pathMode := .note } ora h file af := by
    intro af
    rw [resolvePhase_note { st with pathMode := PathMode.note } ora h file af
      (by simp)]
    unfold resolvePhase
    rw [if_pos h1, if_neg (by simp [h2])]
    rw [hcalc (noteParentOf af)]
  have hmain : uploadFile st ora h file active =
      uploadFile { st with pathMode := .note } ora h file active := by
    rcases active with _ | af
    · rfl
    · have hlink : ∀ rp, remoteLinkText { st with pathMode := PathMode.note }
          file.name rp = remoteLinkText st file.name rp := by
        intro rp
        unfold remoteLinkText
        simp
      simp only [uploadFile]
      rw [hres af]
      simp only [hlink]
  refine ⟨hmain, ?_, hcalc⟩
  rw [hmain]
  rcases active with _ | af
  · simp [uploadFile]
  · have hRP := resolvePhase_note { st with pathMode := PathMode.note } ora
      h file af (by simp)
    rw [uploadFile_eq _ ora h file af _ true false _ _ hRP]
    rw [if_neg (by simp),
      if_pos ⟨rfl, calculateRemotePath_ne_nil _ _ _ _⟩]
    rcases hU : uploadStep ora h (calculateRemotePath
      { st with pathMode := .note } file.name (noteParentOf af) file.fpath)
      file.content with ⟨fl, n2, h2'⟩
    try rw [hU]
    cases fl with
    | true => simp
    | false => simp

theorem spec_c10_witness :
    (stLocal.pathMode = .local ∧ fileNoPath.fpath = []) ∧
    uploadFile stLocal oraEmptySrv [] fileNoPath afN =
      uploadFile { stLocal with pathMode := .note } oraEmptySrv []
        fileNoPath afN ∧
    (uploadFile stLocal oraEmptySrv [] fileNoPath afN).decision ≠
      some .localLink :=
  ⟨⟨rfl, rfl⟩,
    (spec_c10 stLocal oraEmptySrv [] fileNoPath afN rfl rfl).1,
    (spec_c10 stLocal oraEmptySrv [] fileNoPath afN rfl rfl).2.1⟩
